import Mathlib

/-!
Verification development for the training/inference engine of the
web-autoencoder repository (`src/lib/gif-encoder.worker.ts`).

The worker's JavaScript is shallowly embedded here.  Machine floats are
idealised as exact rationals (`ℚ`) for the network arithmetic, and as exact
reals (`ℝ`) for the milestone computation, which uses `Math.pow` with a
fractional exponent.  JavaScript division by zero (which produces
`NaN`/`Infinity`) corresponds to division by zero in `ℚ`, which yields `0`;
every theorem below is insensitive to that corner.  Mutable `Float64Array`
buffers become immutable `List ℚ` values; the deep copies performed by
`createSnapshot`/`restoreSnapshot` in the source justify modelling buffers by
their contents.
-/

namespace ImagePainter

/-- Model of the worker's `NetworkSnapshot` interface: an iteration count plus
deep copies of the per-layer weight and bias buffers. -/
structure NetworkSnapshot where
  iteration : ℕ
  weights : List (List ℚ)
  biases : List (List ℚ)
deriving DecidableEq

/-- Model of the worker's `NeuralNetwork` class state.  Each element of
`weights` is the flattened row-major `Float64Array` of one layer
(`outputSize * inputSize` entries, entry `j * inputSize + k` being the weight
from input `k` to output `j`), mirroring the source layout. -/
structure NeuralNetwork where
  layerSizes : List ℕ
  weights : List (List ℚ)
  biases : List (List ℚ)
  learningRate : ℚ
  momentum : ℚ
  l2Decay : ℚ
  weightVelocities : List (List ℚ)
  biasVelocities : List (List ℚ)
deriving DecidableEq

/-- Source `Math.max(0, Math.min(1, sum))`: output-layer clamp to `[0, 1]`. -/
def clamp01 (x : ℚ) : ℚ := max 0 (min 1 x)

/-- Source `sum > 0 ? sum : 0`: the hidden-layer ReLU used in `forward`/`train`. -/
def relu (x : ℚ) : ℚ := if 0 < x then x else 0

/-- The inner accumulation loop
`for k < current.length: sum += weights[offset + k] * current[k]`,
started from `init` (the bias). -/
def dotFrom (ws : List ℚ) (offset : ℕ) (current : List ℚ) (init : ℚ) : ℚ :=
  (List.range current.length).foldl
    (fun s k => s + ws.getD (offset + k) 0 * current.getD k 0) init

/-- One layer of `NeuralNetwork.forward`: maps the current activation vector
through layer `l`, applying the clamp on the last layer and ReLU otherwise. -/
def NeuralNetwork.layerOut (net : NeuralNetwork) (l : ℕ) (current : List ℚ) : List ℚ :=
  let inputSize := net.layerSizes.getD l 0
  let outputSize := net.layerSizes.getD (l + 1) 0
  let weights := net.weights.getD l []
  let biases := net.biases.getD l []
  let isLastLayer := l = net.weights.length - 1
  (List.range outputSize).map fun j =>
    let sum := dotFrom weights (j * inputSize) current (biases.getD j 0)
    if isLastLayer then clamp01 sum else relu sum

/-- The `for (l = 0; l < numLayers; l++)` loop of `forward`, driven by the
number of remaining layers. -/
def NeuralNetwork.forwardFrom (net : NeuralNetwork) : ℕ → ℕ → List ℚ → List ℚ
  | 0, _, current => current
  | fuel + 1, l, current => net.forwardFrom fuel (l + 1) (net.layerOut l current)

/-- Model of `NeuralNetwork.forward(inputX, inputY)`: full forward pass from
`current = [inputX, inputY]`. -/
def NeuralNetwork.forward (net : NeuralNetwork) (inputX inputY : ℚ) : List ℚ :=
  net.forwardFrom net.weights.length 0 [inputX, inputY]

/-- Method `predict` is an alias for `forward` in the source. -/
def NeuralNetwork.predict (net : NeuralNetwork) (inputX inputY : ℚ) : List ℚ :=
  net.forward inputX inputY

/-- One layer of the training forward pass of `train`: returns the
pre-activation vector `z` and the activation vector for layer `l`. -/
def NeuralNetwork.layerZA (net : NeuralNetwork) (l : ℕ) (current : List ℚ) :
    List ℚ × List ℚ :=
  let inputSize := net.layerSizes.getD l 0
  let outputSize := net.layerSizes.getD (l + 1) 0
  let weights := net.weights.getD l []
  let biases := net.biases.getD l []
  let isLastLayer := l = net.weights.length - 1
  let z := (List.range outputSize).map fun j =>
    dotFrom weights (j * inputSize) current (biases.getD j 0)
  (z, z.map fun sum => if isLastLayer then clamp01 sum else relu sum)

/-- The stored-activation forward loop of `train`: threads the current
activation through the layers while accumulating the `activations` and
`zValues` arrays (first component: activations, second: zValues). -/
def NeuralNetwork.traceFrom (net : NeuralNetwork) :
    ℕ → ℕ → List ℚ → List (List ℚ) × List (List ℚ) → List (List ℚ) × List (List ℚ)
  | 0, _, _, acc => acc
  | fuel + 1, l, current, acc =>
    let za := net.layerZA l current
    net.traceFrom fuel (l + 1) za.2 (acc.1 ++ [za.2], acc.2 ++ [za.1])

/-- The `activations` and `zValues` arrays computed by `train` for one input:
`activations` starts at `[[inputX, inputY]]` and gains one entry per layer. -/
def NeuralNetwork.trainTrace (net : NeuralNetwork) (inputX inputY : ℚ) :
    List (List ℚ) × List (List ℚ) :=
  net.traceFrom net.weights.length 0 [inputX, inputY] ([[inputX, inputY]], [])

/-- The output-layer delta of `train`:
`outputDelta[i] = target[i] - output[i]` for `i < 3` (linear output,
derivative 1). -/
def outputDelta (target output : List ℚ) : List ℚ :=
  (List.range 3).map fun i => target.getD i 0 - output.getD i 0

/-- The hidden-layer delta loop of `train`
(`for (l = numLayers - 2; l >= 0; l--) ... deltas.unshift(delta)`), with the
fuel argument holding `l + 1`.  `delta[i]` multiplies the downstream-weighted
sum of the previous delta (`deltas[0]`) by the ReLU derivative of
`zValues[l][i]`. -/
def NeuralNetwork.hiddenDeltas (net : NeuralNetwork) (zVals : List (List ℚ)) :
    ℕ → List (List ℚ) → List (List ℚ)
  | 0, deltas => deltas
  | l + 1, deltas =>
    let outputSize := net.layerSizes.getD (l + 1) 0
    let nextOutputSize := net.layerSizes.getD (l + 2) 0
    let nextWeights := net.weights.getD (l + 1) []
    let prevDelta := deltas.getD 0 []
    let delta := (List.range outputSize).map fun i =>
      if 0 < (zVals.getD l []).getD i 0 then
        (List.range nextOutputSize).foldl
          (fun s j => s + nextWeights.getD (j * outputSize + i) 0 * prevDelta.getD j 0) 0
      else 0
    net.hiddenDeltas zVals l (delta :: deltas)

/-- The complete `deltas` array of `train` (index `l` holds the error signal
of the outputs of layer `l`; the last entry is the output-layer delta). -/
def NeuralNetwork.trainDeltas (net : NeuralNetwork)
    (inputX inputY targetR targetG targetB : ℚ) : List (List ℚ) :=
  let numLayers := net.weights.length
  let trace := net.trainTrace inputX inputY
  let output := trace.1.getD numLayers []
  net.hiddenDeltas trace.2 (numLayers - 1) [outputDelta [targetR, targetG, targetB] output]

/-- The parameter-update loop body of `train` for one layer: for every
`j < outputSize`, `k < inputSize` and `idx = j * inputSize + k`
(equivalently `j = idx / inputSize`, `k = idx % inputSize`):
`grad = delta[j] * prevActivation[k] - l2Decay * weights[idx]`,
`weightVel[idx] = momentum * weightVel[idx] + learningRate * grad`,
`weights[idx] += weightVel[idx]`, and for the biases
`biasVel[j] = momentum * biasVel[j] + learningRate * delta[j]`,
`biases[j] += biasVel[j]`.  Returns
(new weights, new biases, new weight velocities, new bias velocities). -/
def updateLayer (learningRate momentum l2Decay : ℚ) (inputSize outputSize : ℕ)
    (weights biases weightVel biasVel prevActivation delta : List ℚ) :
    List ℚ × List ℚ × List ℚ × List ℚ :=
  let newWeightVel := (List.range (outputSize * inputSize)).map fun idx =>
    momentum * weightVel.getD idx 0 +
      learningRate * (delta.getD (idx / inputSize) 0 * prevActivation.getD (idx % inputSize) 0 -
        l2Decay * weights.getD idx 0)
  let newWeights := (List.range (outputSize * inputSize)).map fun idx =>
    weights.getD idx 0 + newWeightVel.getD idx 0
  let newBiasVel := (List.range outputSize).map fun j =>
    momentum * biasVel.getD j 0 + learningRate * delta.getD j 0
  let newBiases := (List.range outputSize).map fun j =>
    biases.getD j 0 + newBiasVel.getD j 0
  (newWeights, newBiases, newWeightVel, newBiasVel)

/-- Model of `NeuralNetwork.train(inputX, inputY, targetR, targetG, targetB)`: combined
forward + backward pass with momentum and L2 decay.  Returns the updated
network together with the single-sample MSE loss over the 3 output
channels. -/
def NeuralNetwork.train (net : NeuralNetwork)
    (inputX inputY targetR targetG targetB : ℚ) : NeuralNetwork × ℚ :=
  let numLayers := net.weights.length
  let trace := net.trainTrace inputX inputY
  let acts := trace.1
  let output := acts.getD numLayers []
  let target := [targetR, targetG, targetB]
  let loss := ((List.range 3).foldl
    (fun s i => s + (target.getD i 0 - output.getD i 0) ^ 2) 0) / 3
  let deltas := net.hiddenDeltas trace.2 (numLayers - 1) [outputDelta target output]
  let upd := (List.range numLayers).map fun l =>
    updateLayer net.learningRate net.momentum net.l2Decay
      (net.layerSizes.getD l 0) (net.layerSizes.getD (l + 1) 0)
      (net.weights.getD l []) (net.biases.getD l [])
      (net.weightVelocities.getD l []) (net.biasVelocities.getD l [])
      (acts.getD l []) (deltas.getD l [])
  ({ net with
      weights := upd.map (·.1)
      biases := upd.map (·.2.1)
      weightVelocities := upd.map (·.2.2.1)
      biasVelocities := upd.map (·.2.2.2) }, loss)

/-- Model of `createSnapshot(iteration)`: deep copy of the weight and bias buffers. -/
def NeuralNetwork.createSnapshot (net : NeuralNetwork) (iteration : ℕ) : NetworkSnapshot :=
  { iteration := iteration, weights := net.weights, biases := net.biases }

/-- Model of `restoreSnapshot(snapshot)`: overwrite the live weight and bias buffers
with deep copies of the snapshot's; every other field (in particular the two
velocity buffers) is untouched. -/
def NeuralNetwork.restoreSnapshot (net : NeuralNetwork) (snapshot : NetworkSnapshot) :
    NeuralNetwork :=
  { net with weights := snapshot.weights, biases := snapshot.biases }

/-- Source `Math.round` on the nonneg values produced by rendering: round half away
from zero, i.e. `⌊q + 1/2⌋` for `q ≥ 0` (written with the computable
`Rat.floor`). -/
def jsRound (q : ℚ) : ℤ := (q + 1 / 2).floor

/-- One RGBA pixel of `renderToBuffer`: normalize `(x, y)` to `[-1, 1]` via
`2 * coord / dimension - 1`, run `forward`, scale each channel by 255 with
rounding, alpha 255. -/
def NeuralNetwork.pixelAt (net : NeuralNetwork) (width height x y : ℕ) : List ℤ :=
  let inputX := ((x : ℚ) / (width : ℚ)) * 2 - 1
  let inputY := ((y : ℚ) / (height : ℚ)) * 2 - 1
  let out := net.forward inputX inputY
  [jsRound (out.getD 0 0 * 255), jsRound (out.getD 1 0 * 255),
    jsRound (out.getD 2 0 * 255), 255]

/-- Model of `renderToBuffer(width, height)`: the flat RGBA buffer, rows in `y` order,
pixels in `x` order within a row. -/
def NeuralNetwork.renderToBuffer (net : NeuralNetwork) (width height : ℕ) : List ℤ :=
  (List.range height).foldl
    (fun buf y => buf ++ (List.range width).foldl
      (fun row x => row ++ net.pixelAt width height x y) []) []

/-- The body of the forward-rendering loop of `generateGifFrames`: restore
the snapshot into the live network and append its rendering. -/
def gifStep (width height : ℕ) (acc : NeuralNetwork × List (List ℤ))
    (snapshot : NetworkSnapshot) : NeuralNetwork × List (List ℤ) :=
  let n := acc.1.restoreSnapshot snapshot
  (n, acc.2 ++ [n.renderToBuffer width height])

/-- Model of `generateGifFrames(width, height)`: with no network a
`"Network not initialized"` error, with no snapshots a
`"No snapshots captured"` error; otherwise restore each snapshot of
`[...snapshots].reverse()` in turn into the live network, rendering a frame
after each restore, then append the frames at indices
`frames.length - 2, ..., 1` (mirrored middle segment).  Returns the network
as left by the last restore, together with the frame list. -/
def generateGifFrames (network : Option NeuralNetwork)
    (snapshots : List NetworkSnapshot) (width height : ℕ) :
    Except String (NeuralNetwork × List (List ℤ)) :=
  match network with
  | none => .error "Network not initialized"
  | some net =>
    if snapshots = [] then .error "No snapshots captured"
    else
      let fwd := snapshots.reverse.foldl (gifStep width height) (net, [])
      let frames := fwd.2 ++
        ((List.range' 1 (fwd.2.length - 2)).reverse.map fun i => fwd.2.getD i [])
      .ok (fwd.1, frames)

/-- Model of `calculateSnapshotMilestones(maxIterations, frameCount)`: `[0]`, then for
`frameCount > 2` the logarithmically spaced interior milestones
`floor(logBase ^ i)` for `i` in `1 .. frameCount - 2` with
`logBase = maxIterations ^ (1 / (frameCount - 2))`, then `maxIterations`.
The float `Math.pow` of the source is idealised as exact real `rpow`. -/
noncomputable def calculateSnapshotMilestones (maxIterations frameCount : ℕ) : List ℕ :=
  if frameCount ≤ 2 then [0, maxIterations]
  else
    let logBase : ℝ := (maxIterations : ℝ) ^ ((1 : ℝ) / ((frameCount : ℝ) - 2))
    [0] ++ ((List.range' 1 (frameCount - 2)).map fun i => ⌊logBase ^ i⌋₊) ++ [maxIterations]

/-- Constant `batchesPerFrame = 50`: batches per scheduler tick (the iteration counter
advances by this much per tick). -/
def batchesPerFrame : ℕ := 50

/-- One randomly drawn training sample of `trainBatch`: normalized input
coordinates and normalized target color.  The `Math.random()` pixel draws of
the source are modelled by passing the drawn samples explicitly. -/
structure Sample where
  x : ℚ
  y : ℚ
  targetR : ℚ
  targetG : ℚ
  targetB : ℚ
deriving DecidableEq

/-- The `trainBatch` loop body: feed each drawn sample to `network.train` in
order, returning the final network and the per-sample losses in order. -/
def runSamples : NeuralNetwork → List Sample → NeuralNetwork × List ℚ
  | net, [] => (net, [])
  | net, s :: rest =>
    let r := net.train s.x s.y s.targetR s.targetG s.targetB
    let tail := runSamples r.1 rest
    (tail.1, r.2 :: tail.2)

/-- Model of `trainBatch()`: runs `batchSize` sample steps (the list of drawn samples,
whose length is the batch size) and returns `totalLoss / batchSize`. -/
def trainBatch (net : NeuralNetwork) (samples : List Sample) : NeuralNetwork × ℚ :=
  let r := runSamples net samples
  (r.1, r.2.sum / (samples.length : ℚ))

/-- The `for (i = 0; i < batchesPerFrame; i++) totalLoss += trainBatch()` loop
of `trainingLoop`: one (batch of drawn samples) per batch step; returns the
final network and `totalLoss`. -/
def tickBatches : NeuralNetwork → List (List Sample) → NeuralNetwork × ℚ
  | net, [] => (net, 0)
  | net, b :: rest =>
    let tb := trainBatch net b
    let tail := tickBatches tb.1 rest
    (tail.1, tb.2 + tail.2)

/-- The tick-level loss of `trainingLoop`: `avgLoss = totalLoss /
batchesPerFrame`, the value carried by the `progress` event. -/
def trainTick (net : NeuralNetwork) (batches : List (List Sample)) :
    NeuralNetwork × ℚ :=
  let r := tickBatches net batches
  (r.1, r.2 / (batchesPerFrame : ℚ))

/-- All per-sample losses computed within one tick's batches, in order, with
the network threaded through exactly as in `trainTick`. -/
def tickSampleLosses : NeuralNetwork → List (List Sample) → List ℚ
  | _, [] => []
  | net, b :: rest =>
    let r := runSamples net b
    r.2 ++ tickSampleLosses r.1 rest

/-- Constant `LOSS_HISTORY_SIZE = 100`. -/
def LOSS_HISTORY_SIZE : ℕ := 100

/-- Constant `DECAY_THRESHOLD = 0.001`. -/
def DECAY_THRESHOLD : ℚ := 1 / 1000

/-- Constant `DECAY_FACTOR = 0.95`. -/
def DECAY_FACTOR : ℚ := 95 / 100

/-- The learning-rate-relevant worker state of `trainingLoop`: the mutable
globals `learningRate` and `lossHistory`. -/
structure LRState where
  learningRate : ℚ
  lossHistory : List ℚ
deriving DecidableEq

/-- The learning-rate adaptation step of one `trainingLoop` tick, fed with the
tick's `avgLoss`: push the loss into the bounded history (`shift` on
overflow), and when the history is full and the rate is above the floor,
decay the rate by `DECAY_FACTOR` (clamped to the floor) and clear the history
whenever the relative improvement `(oldest - newest) / oldest` is below
`DECAY_THRESHOLD`.  (In `ℚ`, `x / 0 = 0`; the float code produces
`NaN`/`-Infinity` when `oldest = 0` — the theorems below hold on either
branch outcome.) -/
def tickLR (minLearningRate : ℚ) (s : LRState) (avgLoss : ℚ) : LRState :=
  let hist := s.lossHistory ++ [avgLoss]
  let hist2 := if LOSS_HISTORY_SIZE < hist.length then hist.tail else hist
  if hist2.length = LOSS_HISTORY_SIZE ∧ minLearningRate < s.learningRate then
    let oldLoss := hist2.getD 0 0
    let newLoss := hist2.getD (LOSS_HISTORY_SIZE - 1) 0
    if (oldLoss - newLoss) / oldLoss < DECAY_THRESHOLD then
      { learningRate := max minLearningRate (s.learningRate * DECAY_FACTOR),
        lossHistory := [] }
    else { s with lossHistory := hist2 }
  else { s with lossHistory := hist2 }

/-- A run of scheduler ticks with the running flag held true and no external
learning-rate command: fold `tickLR` over the observed tick losses. -/
def evolveLR (minLearningRate : ℚ) (s : LRState) (losses : List ℚ) : LRState :=
  losses.foldl (tickLR minLearningRate) s

/-- The snapshot-capture-relevant worker state of `trainingLoop`: the mutable
globals `iteration`, `snapshots` (modelled by the `iteration` fields of the
captured snapshots, the only data the capture schedule reads), and
`snapshotMilestones`, plus the `captureSnapshotsEnabled` flag. -/
structure SnapState where
  iteration : ℕ
  snapshots : List ℕ
  snapshotMilestones : List ℕ
  captureSnapshotsEnabled : Bool
deriving DecidableEq

/-- The snapshot-capture step of one `trainingLoop` tick: the iteration
counter advances by `batchesPerFrame`, then, when capture is enabled and a
schedule exists, the next milestone — indexed by the current snapshot count —
is captured if the iteration has reached it. -/
def tickSnap (s : SnapState) : SnapState :=
  let it := s.iteration + batchesPerFrame
  if s.captureSnapshotsEnabled ∧ 0 < s.snapshotMilestones.length then
    match s.snapshotMilestones[s.snapshots.length]? with
    | some nextMilestone =>
      if nextMilestone ≤ it then
        { s with iteration := it, snapshots := s.snapshots ++ [it] }
      else { s with iteration := it }
    | none => { s with iteration := it }
  else { s with iteration := it }

/-- A sequence of `train` calls applied to the live model (the inputs of the
successive calls given as a list). -/
def applyTrains : NeuralNetwork → List Sample → NeuralNetwork
  | net, [] => net
  | net, s :: rest => applyTrains (net.train s.x s.y s.targetR s.targetG s.targetB).1 rest

/-- A tiny concrete network (2 inputs, one output layer of 3, all parameters
zero) used to evaluate the definitions on closed inputs. -/
def testNet : NeuralNetwork :=
  { layerSizes := [2, 3]
    weights := [List.replicate 6 0]
    biases := [List.replicate 3 0]
    learningRate := 1 / 100
    momentum := 9 / 10
    l2Decay := 0
    weightVelocities := [List.replicate 6 0]
    biasVelocities := [List.replicate 3 0] }

/-- Snapshot of `testNet` at iteration 0 (renders black). -/
def snapZero : NetworkSnapshot := testNet.createSnapshot 0

/-- A later snapshot with all biases 1 (renders white). -/
def snapOne : NetworkSnapshot :=
  { iteration := 100, weights := [List.replicate 6 0], biases := [[1, 1, 1]] }

/-- A concrete training sample. -/
def sample0 : Sample := { x := 0, y := 0, targetR := 1, targetG := 1, targetB := 1 }

/-- A concrete snapshot-capture state: capture enabled, two scheduled
milestones, nothing captured yet. -/
def snapState0 : SnapState :=
  { iteration := 0, snapshots := [], snapshotMilestones := [0, 60],
    captureSnapshotsEnabled := true }

/-! ## Basic lemmas -/

theorem layerOut_eq_of_fields {n1 n2 : NeuralNetwork} (hs : n1.layerSizes = n2.layerSizes)
    (hw : n1.weights = n2.weights) (hb : n1.biases = n2.biases) (l : ℕ) (cur : List ℚ) :
    n1.layerOut l cur = n2.layerOut l cur := by
  simp only [NeuralNetwork.layerOut, hs, hw, hb]

theorem forwardFrom_eq_of_fields {n1 n2 : NeuralNetwork} (hs : n1.layerSizes = n2.layerSizes)
    (hw : n1.weights = n2.weights) (hb : n1.biases = n2.biases) :
    ∀ (fuel l : ℕ) (cur : List ℚ), n1.forwardFrom fuel l cur = n2.forwardFrom fuel l cur := by
  intro fuel
  induction fuel with
  | zero => intro l cur; rfl
  | succ n ih =>
    intro l cur
    simp only [NeuralNetwork.forwardFrom, layerOut_eq_of_fields hs hw hb, ih]

theorem forward_eq_of_fields {n1 n2 : NeuralNetwork} (hs : n1.layerSizes = n2.layerSizes)
    (hw : n1.weights = n2.weights) (hb : n1.biases = n2.biases) (x y : ℚ) :
    n1.forward x y = n2.forward x y := by
  simp only [NeuralNetwork.forward, hw, forwardFrom_eq_of_fields hs hw hb]

theorem train_layerSizes (net : NeuralNetwork) (x y r g b : ℚ) :
    (net.train x y r g b).1.layerSizes = net.layerSizes := rfl

theorem applyTrains_layerSizes (trains : List Sample) :
    ∀ net : NeuralNetwork, (applyTrains net trains).layerSizes = net.layerSizes := by
  induction trains with
  | nil => intro net; rfl
  | cons s rest ih =>
    intro net
    simpa [applyTrains] using ih (net.train s.x s.y s.targetR s.targetG s.targetB).1

/-! ## C1 and C8 -/

/-- C1: capturing a snapshot, training any number of times on the live model,
restoring the snapshot and calling `predict (x, y)` yields output identical to
`predict (x, y)` at the moment of capture; the snapshot's contents are
untouched by training the live model. -/
theorem c1_snapshot_roundtrip (net : NeuralNetwork) (it : ℕ) (trains : List Sample)
    (x y : ℚ) :
    ((applyTrains net trains).restoreSnapshot (net.createSnapshot it)).predict x y
      = net.predict x y := by
  apply forward_eq_of_fields
  · simpa [NeuralNetwork.restoreSnapshot] using applyTrains_layerSizes trains net
  · rfl
  · rfl

/-- C8: `restoreSnapshot` overwrites exactly the weight and bias buffers with
the snapshot's, and leaves both velocity buffers unchanged. -/
theorem c8_restore_effect (net : NeuralNetwork) (s : NetworkSnapshot) :
    (net.restoreSnapshot s).weights = s.weights ∧
    (net.restoreSnapshot s).biases = s.biases ∧
    (net.restoreSnapshot s).weightVelocities = net.weightVelocities ∧
    (net.restoreSnapshot s).biasVelocities = net.biasVelocities :=
  ⟨rfl, rfl, rfl, rfl⟩

/-! ## GIF generation lemmas -/

theorem restore_restore (net : NeuralNetwork) (a b : NetworkSnapshot) :
    (net.restoreSnapshot a).restoreSnapshot b = net.restoreSnapshot b := rfl

theorem getLastD_irrel {α : Type} (l : List α) (hne : l ≠ []) (d1 d2 : α) :
    l.getLastD d1 = l.getLastD d2 := by
  cases l with
  | nil => exact absurd rfl hne
  | cons x xs => rw [List.getLastD_cons, List.getLastD_cons]

theorem gifFold_fst (w h : ℕ) (d : NetworkSnapshot) :
    ∀ (l : List NetworkSnapshot) (net : NeuralNetwork) (acc : List (List ℤ)),
      l ≠ [] → (l.foldl (gifStep w h) (net, acc)).1 = net.restoreSnapshot (l.getLastD d) := by
  intro l
  induction l with
  | nil => intro net acc hne; exact absurd rfl hne
  | cons x xs ih =>
    intro net acc _
    by_cases hxs : xs = []
    · subst hxs; simp [gifStep, List.getLastD_cons]
    · have step1 : (x :: xs).foldl (gifStep w h) (net, acc)
          = xs.foldl (gifStep w h) (gifStep w h (net, acc) x) := rfl
      rw [step1]
      have := ih (net.restoreSnapshot x) (acc ++ [(net.restoreSnapshot x).renderToBuffer w h]) hxs
      rw [show gifStep w h (net, acc) x
          = (net.restoreSnapshot x, acc ++ [(net.restoreSnapshot x).renderToBuffer w h]) from rfl]
      rw [this, restore_restore, List.getLastD_cons, getLastD_irrel xs hxs d x]

theorem gifFold_snd_length (w h : ℕ) :
    ∀ (l : List NetworkSnapshot) (net : NeuralNetwork) (acc : List (List ℤ)),
      (l.foldl (gifStep w h) (net, acc)).2.length = acc.length + l.length := by
  intro l
  induction l with
  | nil => intro net acc; simp
  | cons x xs ih =>
    intro net acc
    have step1 : (x :: xs).foldl (gifStep w h) (net, acc)
        = xs.foldl (gifStep w h) (gifStep w h (net, acc) x) := rfl
    rw [step1]
    simp [gifStep, ih]
    omega

theorem gen_eq (net : NeuralNetwork) (snaps : List NetworkSnapshot) (w h : ℕ)
    (hne : snaps ≠ []) :
    generateGifFrames (some net) snaps w h =
      Except.ok ((snaps.reverse.foldl (gifStep w h) (net, [])).1,
        (snaps.reverse.foldl (gifStep w h) (net, [])).2 ++
          ((List.range' 1 ((snaps.reverse.foldl (gifStep w h) (net, [])).2.length - 2)).reverse.map
            fun i => (snaps.reverse.foldl (gifStep w h) (net, [])).2.getD i [])) := by
  show (if snaps = [] then Except.error "No snapshots captured" else _) = _
  rw [if_neg hne]

theorem gen_ok_length (net : NeuralNetwork) (snaps : List NetworkSnapshot) (w h : ℕ)
    (hne : snaps ≠ []) :
    ∃ n frames, generateGifFrames (some net) snaps w h = .ok (n, frames) ∧
      frames.length = snaps.length + (snaps.length - 2) := by
  have hlen : (snaps.reverse.foldl (gifStep w h) (net, [])).2.length = snaps.length := by
    simpa using gifFold_snd_length w h snaps.reverse net []
  rw [gen_eq net snaps w h hne]
  refine ⟨_, _, rfl, ?_⟩
  simp only [List.length_append, List.length_map, List.length_reverse, List.length_range']
  rw [hlen]

theorem jsRound_eq (q : ℚ) : jsRound q = ⌊q + 1 / 2⌋ :=
  (Rat.floor_def' _).trans Rat.floor_def.symm

/-! ## C3, C4, C10 -/

/-- C3 (amended): with S ≥ 2 captured snapshots a journey has exactly
`2S - 2` frames; with S = 0 a `gifError` is reported; with S = 1 the code
emits a single frame instead of reporting an error. -/
theorem c3_journey_frame_count (net : NeuralNetwork) (snaps : List NetworkSnapshot)
    (w h : ℕ) :
    (2 ≤ snaps.length →
      ∃ n frames, generateGifFrames (some net) snaps w h = .ok (n, frames) ∧
        frames.length = 2 * snaps.length - 2) ∧
    (snaps.length = 0 →
      generateGifFrames (some net) snaps w h = .error "No snapshots captured") ∧
    (snaps.length = 1 →
      ∃ n frames, generateGifFrames (some net) snaps w h = .ok (n, frames) ∧
        frames.length = 1) := by
  refine ⟨?_, ?_, ?_⟩
  · intro h2
    have hne : snaps ≠ [] := by
      intro he
      rw [he] at h2
      simp at h2
    obtain ⟨n, frames, heq, hlen⟩ := gen_ok_length net snaps w h hne
    exact ⟨n, frames, heq, by omega⟩
  · intro h0
    have he : snaps = [] := List.length_eq_zero.mp h0
    rw [he]
    rfl
  · intro h1
    have hne : snaps ≠ [] := by
      intro he
      rw [he] at h1
      simp at h1
    obtain ⟨n, frames, heq, hlen⟩ := gen_ok_length net snaps w h hne
    exact ⟨n, frames, heq, by omega⟩

/-- C3 witness: a concrete 2-snapshot journey succeeds with 2·2−2 = 2
frames. -/
theorem c3_witness :
    2 ≤ ([snapZero, snapOne] : List NetworkSnapshot).length ∧
    ∃ n frames, generateGifFrames (some testNet) [snapZero, snapOne] 1 1
      = Except.ok (n, frames) ∧
      frames.length = 2 * ([snapZero, snapOne] : List NetworkSnapshot).length - 2 :=
  ⟨by decide, (c3_journey_frame_count testNet [snapZero, snapOne] 1 1).1 (by decide)⟩

/-- C3 counterexample to the claim as stated: with S = 1 (< 2) captured
snapshots the code produces a frame buffer (one frame) and no error. -/
theorem c3_counterexample :
    ∃ n frames, generateGifFrames (some testNet) [snapZero] 1 1 = Except.ok (n, frames) ∧
      frames.length = 1 := by
  obtain ⟨n, frames, heq, hlen⟩ := gen_ok_length testNet [snapZero] 1 1 (by simp)
  exact ⟨n, frames, heq, by simpa using hlen⟩

/-- C4: evaluating `generateGifFrames` on two snapshots — the older renders
black, the newer renders white — shows the first emitted frame is the NEWEST
snapshot's rendering (the forward loop iterates `[...snapshots].reverse()`),
contradicting the oldest→newest order stated by the spec and by the source's
own `Progressive iterations (forward)` comment. -/
theorem c4_newest_rendered_first :
    generateGifFrames (some testNet) [snapZero, snapOne] 1 1
      = Except.ok (testNet.restoreSnapshot snapZero,
          [[255, 255, 255, 255], [0, 0, 0, 255]]) := by
  rw [gen_eq testNet [snapZero, snapOne] 1 1 (by simp)]
  norm_num [gifStep, NeuralNetwork.restoreSnapshot, NeuralNetwork.renderToBuffer,
    NeuralNetwork.pixelAt, NeuralNetwork.forward, NeuralNetwork.forwardFrom,
    NeuralNetwork.layerOut, NeuralNetwork.createSnapshot, dotFrom, clamp01, relu, jsRound,
    testNet, snapZero, snapOne, List.range_succ, List.range', Rat.floor_def']

/-- C10: a successful journey generation leaves the live model's weights and
biases equal to those of the snapshot restored last during rendering (the
head of the snapshot list, since the render loop walks the reversed list);
the velocities and every other field keep their pre-generation values, as
`restoreSnapshot` only overwrites weights and biases. -/
theorem c10_post_generation_state (net : NeuralNetwork) (s0 : NetworkSnapshot)
    (rest : List NetworkSnapshot) (w h : ℕ) :
    ∃ frames, generateGifFrames (some net) (s0 :: rest) w h
      = Except.ok (net.restoreSnapshot s0, frames) := by
  have hne : (s0 :: rest) ≠ [] := by simp
  have hrev : (s0 :: rest).reverse ≠ [] := by simp
  have hfold := gifFold_fst w h s0 ((s0 :: rest).reverse) net [] hrev
  have hlast : ((s0 :: rest).reverse).getLastD s0 = s0 := by
    rw [List.reverse_cons]
    exact List.getLastD_concat _ _ _
  rw [hlast] at hfold
  rw [gen_eq net (s0 :: rest) w h hne, hfold]
  exact ⟨_, rfl⟩

/-! ## C5: learning-rate policy -/

set_option maxHeartbeats 2000000 in
theorem tickLR_le (minLR : ℚ) (s : LRState) (avgLoss : ℚ) (h0 : 0 ≤ minLR)
    (h1 : minLR ≤ s.learningRate) :
    minLR ≤ (tickLR minLR s avgLoss).learningRate ∧
    (tickLR minLR s avgLoss).learningRate ≤ s.learningRate := by
  have hlr : (0 : ℚ) ≤ s.learningRate := le_trans h0 h1
  have hmul : s.learningRate * DECAY_FACTOR ≤ s.learningRate := by
    calc s.learningRate * DECAY_FACTOR ≤ s.learningRate * 1 := by
          apply mul_le_mul_of_nonneg_left _ hlr
          norm_num [DECAY_FACTOR]
      _ = s.learningRate := mul_one _
  simp only [tickLR]
  split <;> split <;>
    first
      | exact ⟨h1, le_refl _⟩
      | (split <;>
          first
            | exact ⟨le_max_left _ _, max_le h1 hmul⟩
            | exact ⟨h1, le_refl _⟩)

/-- C5: while the running flag stays true and no external learning-rate
command arrives, the learning rate stays at or above the configured floor and
never increases: after any run of ticks it is still ≥ `minLearningRate`, it
is ≤ its starting value, and each additional tick can only lower it
further.  (Hypotheses: the floor is nonnegative and the starting rate is at
or above the floor, as with the shipped defaults 0.01 ≥ 0.0001 ≥ 0.) -/
theorem c5_learning_rate (minLR : ℚ) (s : LRState) (h0 : 0 ≤ minLR)
    (h1 : minLR ≤ s.learningRate) (losses : List ℚ) :
    minLR ≤ (evolveLR minLR s losses).learningRate ∧
    (evolveLR minLR s losses).learningRate ≤ s.learningRate ∧
    ∀ avgLoss : ℚ, (evolveLR minLR s (losses ++ [avgLoss])).learningRate
      ≤ (evolveLR minLR s losses).learningRate := by
  have main : ∀ (ls : List ℚ) (t : LRState), minLR ≤ t.learningRate →
      minLR ≤ (evolveLR minLR t ls).learningRate ∧
      (evolveLR minLR t ls).learningRate ≤ t.learningRate := by
    intro ls
    induction ls with
    | nil => intro t ht; exact ⟨ht, le_refl _⟩
    | cons x xs ih =>
      intro t ht
      have hstep := tickLR_le minLR t x h0 ht
      have hrec := ih (tickLR minLR t x) hstep.1
      exact ⟨hrec.1, le_trans hrec.2 hstep.2⟩
  have h2 := main losses s h1
  refine ⟨h2.1, h2.2, ?_⟩
  intro avgLoss
  have happ : evolveLR minLR s (losses ++ [avgLoss])
      = tickLR minLR (evolveLR minLR s losses) avgLoss := by
    simp [evolveLR, List.foldl_append]
  rw [happ]
  exact (tickLR_le minLR (evolveLR minLR s losses) avgLoss h0 h2.1).2

/-- C5 witness: a concrete state (floor 0, rate 1) and two observed tick
losses. -/
theorem c5_witness :
    (0 : ℚ) ≤ 0 ∧ (0 : ℚ) ≤ ({ learningRate := 1, lossHistory := [] } : LRState).learningRate ∧
    ((0 : ℚ) ≤ (evolveLR 0 { learningRate := 1, lossHistory := [] } [2, 3]).learningRate ∧
      (evolveLR 0 { learningRate := 1, lossHistory := [] } [2, 3]).learningRate
        ≤ ({ learningRate := 1, lossHistory := [] } : LRState).learningRate ∧
      ∀ avgLoss : ℚ,
        (evolveLR 0 { learningRate := 1, lossHistory := [] } ([2, 3] ++ [avgLoss])).learningRate
          ≤ (evolveLR 0 { learningRate := 1, lossHistory := [] } [2, 3]).learningRate) :=
  ⟨le_refl 0, by norm_num,
    c5_learning_rate 0 { learningRate := 1, lossHistory := [] } (le_refl 0) (by norm_num) [2, 3]⟩

/-! ## C9: snapshot capture scheduling -/

theorem tickSnap_iteration (s : SnapState) :
    (tickSnap s).iteration = s.iteration + batchesPerFrame := by
  simp only [tickSnap]
  split
  · split
    · split <;> rfl
    · rfl
  · rfl

theorem tickSnap_milestones (s : SnapState) :
    (tickSnap s).snapshotMilestones = s.snapshotMilestones := by
  simp only [tickSnap]
  split
  · split
    · split <;> rfl
    · rfl
  · rfl

theorem tickSnap_enabled (s : SnapState) :
    (tickSnap s).captureSnapshotsEnabled = s.captureSnapshotsEnabled := by
  simp only [tickSnap]
  split
  · split
    · split <;> rfl
    · rfl
  · rfl

theorem tickSnap_len_le (s : SnapState) :
    (tickSnap s).snapshots.length ≤ s.snapshots.length + 1 := by
  simp only [tickSnap]
  split
  · split
    · split
      · simp
      · exact Nat.le_succ _
    · exact Nat.le_succ _
  · exact Nat.le_succ _

theorem tickSnap_push (s : SnapState) (hen : s.captureSnapshotsEnabled = true)
    (hlt : s.snapshots.length < s.snapshotMilestones.length)
    (hm : ∀ m ∈ s.snapshotMilestones, m ≤ s.iteration) :
    (tickSnap s).snapshots.length = s.snapshots.length + 1 := by
  have hc : s.captureSnapshotsEnabled ∧ 0 < s.snapshotMilestones.length :=
    ⟨hen, lt_of_le_of_lt (Nat.zero_le _) hlt⟩
  have hmem : s.snapshotMilestones[s.snapshots.length] ∈ s.snapshotMilestones :=
    List.getElem_mem hlt
  simp only [tickSnap, if_pos hc, List.getElem?_eq_getElem hlt]
  rw [if_pos (le_trans (hm _ hmem) (Nat.le_add_right _ _))]
  simp

theorem tickSnap_full (s : SnapState)
    (hge : s.snapshotMilestones.length ≤ s.snapshots.length) :
    (tickSnap s).snapshots = s.snapshots := by
  simp only [tickSnap]
  split
  · rw [List.getElem?_eq_none hge]
  · rfl

theorem tickSnap_le_total (s : SnapState)
    (h : s.snapshots.length ≤ s.snapshotMilestones.length) :
    (tickSnap s).snapshots.length ≤ s.snapshotMilestones.length := by
  rcases Nat.lt_or_ge s.snapshots.length s.snapshotMilestones.length with hlt | hge
  · exact le_trans (tickSnap_len_le s) hlt
  · rw [tickSnap_full s hge]
    exact h

theorem iter_milestones (k : ℕ) :
    ∀ s : SnapState, (tickSnap^[k] s).snapshotMilestones = s.snapshotMilestones := by
  induction k with
  | zero => intro s; rfl
  | succ n ih =>
    intro s
    rw [Function.iterate_succ_apply, ih, tickSnap_milestones]

theorem iter_enabled (k : ℕ) :
    ∀ s : SnapState, (tickSnap^[k] s).captureSnapshotsEnabled = s.captureSnapshotsEnabled := by
  induction k with
  | zero => intro s; rfl
  | succ n ih =>
    intro s
    rw [Function.iterate_succ_apply, ih, tickSnap_enabled]

theorem iter_iteration (k : ℕ) :
    ∀ s : SnapState, (tickSnap^[k] s).iteration = s.iteration + k * batchesPerFrame := by
  induction k with
  | zero => intro s; simp
  | succ n ih =>
    intro s
    rw [Function.iterate_succ_apply, ih, tickSnap_iteration]
    ring

theorem iter_le_total (k : ℕ) :
    ∀ s : SnapState, s.snapshots.length ≤ s.snapshotMilestones.length →
      (tickSnap^[k] s).snapshots.length ≤ s.snapshotMilestones.length := by
  induction k with
  | zero => intro s h; exact h
  | succ n ih =>
    intro s h
    rw [Function.iterate_succ_apply]
    have := ih (tickSnap s) (by rw [tickSnap_milestones]; exact tickSnap_le_total s h)
    rwa [tickSnap_milestones] at this

theorem le_foldr_max : ∀ (l : List ℕ) (m : ℕ), m ∈ l → m ≤ l.foldr max 0 := by
  intro l
  induction l with
  | nil => intro m hm; cases hm
  | cons x xs ih =>
    intro m hm
    rcases List.mem_cons.mp hm with h | h
    · rw [h]; exact le_max_left _ _
    · exact le_trans (ih m h) (le_max_right _ _)

theorem tickSnap_reach : ∀ (k : ℕ) (s : SnapState),
    s.captureSnapshotsEnabled = true →
    (∀ m ∈ s.snapshotMilestones, m ≤ s.iteration) →
    s.snapshots.length ≤ s.snapshotMilestones.length →
    s.snapshotMilestones.length ≤ s.snapshots.length + k →
    (tickSnap^[k] s).snapshots.length = s.snapshotMilestones.length := by
  intro k
  induction k with
  | zero =>
    intro s _ _ h3 h4
    exact le_antisymm h3 (by simpa using h4)
  | succ n ih =>
    intro s hen hm h3 h4
    rw [Function.iterate_succ_apply]
    have hm' : ∀ m ∈ (tickSnap s).snapshotMilestones, m ≤ (tickSnap s).iteration := by
      intro m hmem
      rw [tickSnap_milestones] at hmem
      rw [tickSnap_iteration]
      exact le_trans (hm m hmem) (Nat.le_add_right _ _)
    have hen' : (tickSnap s).captureSnapshotsEnabled = true := by
      rw [tickSnap_enabled]; exact hen
    rcases Nat.lt_or_ge s.snapshots.length s.snapshotMilestones.length with hlt | hge
    · have hpush := tickSnap_push s hen hlt hm
      have := ih (tickSnap s) hen' hm'
        (by rw [tickSnap_milestones, hpush]; exact hlt)
        (by rw [tickSnap_milestones, hpush]; omega)
      rwa [tickSnap_milestones] at this
    · have hfull := tickSnap_full s hge
      have heq : s.snapshots.length = s.snapshotMilestones.length := le_antisymm h3 hge
      have := ih (tickSnap s) hen' hm'
        (by rw [tickSnap_milestones, hfull]; exact h3)
        (by rw [tickSnap_milestones, hfull]; omega)
      rwa [tickSnap_milestones] at this

/-- C9: each scheduler tick captures at most one snapshot, even when the
tick's 50-iteration advance crosses several unmet milestones at once; and
because the next milestone is indexed by the current snapshot count,
continued ticking still eventually brings the number of captured snapshots
up to the full number of scheduled milestones. -/
theorem c9_capture_schedule (s : SnapState)
    (hen : s.captureSnapshotsEnabled = true)
    (hcnt : s.snapshots.length ≤ s.snapshotMilestones.length) :
    (∀ n : ℕ, (tickSnap^[n + 1] s).snapshots.length
        ≤ (tickSnap^[n] s).snapshots.length + 1) ∧
    (∃ n : ℕ, (tickSnap^[n] s).snapshots.length = s.snapshotMilestones.length) := by
  constructor
  · intro n
    rw [Function.iterate_succ_apply']
    exact tickSnap_len_le _
  · refine ⟨s.snapshotMilestones.length + s.snapshotMilestones.foldr max 0, ?_⟩
    rw [Function.iterate_add_apply]
    have hreach := tickSnap_reach s.snapshotMilestones.length
      (tickSnap^[s.snapshotMilestones.foldr max 0] s)
      (by rw [iter_enabled]; exact hen)
      (by
        intro m hmem
        rw [iter_milestones] at hmem
        rw [iter_iteration]
        have h1 : m ≤ s.snapshotMilestones.foldr max 0 := le_foldr_max _ m hmem
        have h2 : s.snapshotMilestones.foldr max 0
            ≤ s.snapshotMilestones.foldr max 0 * batchesPerFrame := by
          have : 0 < batchesPerFrame := by norm_num [batchesPerFrame]
          exact Nat.le_mul_of_pos_right _ this
        omega)
      (by
        rw [iter_milestones]
        exact iter_le_total _ s hcnt)
      (by rw [iter_milestones]; omega)
    rwa [iter_milestones] at hreach

/-- C9 witness: a concrete enabled state with two scheduled milestones. -/
theorem c9_witness :
    snapState0.captureSnapshotsEnabled = true ∧
    snapState0.snapshots.length ≤ snapState0.snapshotMilestones.length ∧
    ((∀ n : ℕ, (tickSnap^[n + 1] snapState0).snapshots.length
        ≤ (tickSnap^[n] snapState0).snapshots.length + 1) ∧
      (∃ n : ℕ, (tickSnap^[n] snapState0).snapshots.length
        = snapState0.snapshotMilestones.length)) :=
  ⟨rfl, by decide, c9_capture_schedule snapState0 rfl (by decide)⟩

/-! ## C7: reported tick loss is the mean of the per-sample losses -/

theorem runSamples_length : ∀ (samples : List Sample) (net : NeuralNetwork),
    (runSamples net samples).2.length = samples.length := by
  intro samples
  induction samples with
  | nil => intro net; rfl
  | cons s rest ih => intro net; simp [runSamples, ih]

theorem trainBatch_mul (net : NeuralNetwork) (b : List Sample) (B : ℕ)
    (hb : b.length = B) :
    (trainBatch net b).2 * (B : ℚ) = (runSamples net b).2.sum := by
  rcases Nat.eq_zero_or_pos B with h0 | hpos
  · subst h0
    have hnil : b = [] := List.length_eq_zero.mp hb
    subst hnil
    simp [trainBatch, runSamples]
  · have hBne : ((B : ℚ)) ≠ 0 := Nat.cast_ne_zero.mpr (Nat.pos_iff_ne_zero.mp hpos)
    simp only [trainBatch, hb]
    exact div_mul_cancel₀ _ hBne

theorem tickBatches_mul : ∀ (batches : List (List Sample)) (net : NeuralNetwork) (B : ℕ),
    (∀ b ∈ batches, b.length = B) →
    (tickBatches net batches).2 * (B : ℚ) = (tickSampleLosses net batches).sum := by
  intro batches
  induction batches with
  | nil => intro net B _; simp [tickBatches, tickSampleLosses]
  | cons b rest ih =>
    intro net B hB
    have hb := hB b (List.mem_cons_self b rest)
    have hrest : ∀ x ∈ rest, x.length = B := fun x hx => hB x (List.mem_cons_of_mem _ hx)
    simp only [tickBatches, tickSampleLosses, List.sum_append, add_mul]
    rw [trainBatch_mul net b B hb]
    rw [show (trainBatch net b).1 = (runSamples net b).1 from rfl]
    rw [ih (runSamples net b).1 B hrest]

theorem tickSampleLosses_length : ∀ (batches : List (List Sample)) (net : NeuralNetwork)
    (B : ℕ), (∀ b ∈ batches, b.length = B) →
    (tickSampleLosses net batches).length = batches.length * B := by
  intro batches
  induction batches with
  | nil => intro net B _; simp [tickSampleLosses]
  | cons b rest ih =>
    intro net B hB
    have hb := hB b (List.mem_cons_self b rest)
    have hrest : ∀ x ∈ rest, x.length = B := fun x hx => hB x (List.mem_cons_of_mem _ hx)
    simp only [tickSampleLosses, List.length_append, List.length_cons,
      runSamples_length, hb, ih (runSamples net b).1 B hrest]
    ring

theorem tickBatches_zero : ∀ (batches : List (List Sample)) (net : NeuralNetwork),
    (∀ b ∈ batches, b = []) → (tickBatches net batches).2 = 0 := by
  intro batches
  induction batches with
  | nil => intro net _; rfl
  | cons b rest ih =>
    intro net hB
    have hb : b = [] := hB b (List.mem_cons_self b rest)
    subst hb
    have hrest : ∀ x ∈ rest, x = [] := fun x hx => hB x (List.mem_cons_of_mem _ hx)
    simp [tickBatches, trainBatch, runSamples, ih _ hrest]

/-- C7: with a fixed batch size during the tick, the `avgLoss` carried by the
tick's `progress` event equals the arithmetic mean of all per-sample MSE
losses computed inside that tick (sum of the `batchesPerFrame * batchSize`
individual `train` losses over their count). -/
theorem c7_progress_loss_mean (net : NeuralNetwork) (batches : List (List Sample))
    (batchSize : ℕ) (hlen : batches.length = batchesPerFrame)
    (hB : ∀ b ∈ batches, b.length = batchSize) :
    (trainTick net batches).2 =
      (tickSampleLosses net batches).sum /
        ((tickSampleLosses net batches).length : ℚ) := by
  have hcount := tickSampleLosses_length batches net batchSize hB
  have hsum := tickBatches_mul batches net batchSize hB
  rcases Nat.eq_zero_or_pos batchSize with h0 | hpos
  · subst h0
    have hempty : ∀ b ∈ batches, b = [] := fun b hb => List.length_eq_zero.mp (hB b hb)
    have htot := tickBatches_zero batches net hempty
    simp [trainTick, htot, hcount]
  · have hBne : ((batchSize : ℚ)) ≠ 0 := Nat.cast_ne_zero.mpr (Nat.pos_iff_ne_zero.mp hpos)
    rw [hcount, hlen, ← hsum]
    show (tickBatches net batches).2 / (batchesPerFrame : ℚ) = _
    push_cast
    rw [mul_div_mul_right _ _ hBne]

/-- C7 witness: 50 singleton batches through the concrete test network. -/
theorem c7_witness :
    (List.replicate batchesPerFrame [sample0]).length = batchesPerFrame ∧
    (∀ b ∈ List.replicate batchesPerFrame [sample0], b.length = 1) ∧
    (trainTick testNet (List.replicate batchesPerFrame [sample0])).2 =
      (tickSampleLosses testNet (List.replicate batchesPerFrame [sample0])).sum /
        ((tickSampleLosses testNet (List.replicate batchesPerFrame [sample0])).length : ℚ) :=
  ⟨by decide, by decide,
    c7_progress_loss_mean testNet (List.replicate batchesPerFrame [sample0]) 1
      (by decide) (by decide)⟩

/-! ## C2: milestone schedule -/

theorem milestones_eq (M fc : ℕ) (hfc : 2 < fc) :
    calculateSnapshotMilestones M fc =
      [0] ++ ((List.range' 1 (fc - 2)).map fun i =>
        ⌊((M : ℝ) ^ ((1 : ℝ) / ((fc : ℝ) - 2))) ^ i⌋₊) ++ [M] := by
  unfold calculateSnapshotMilestones
  rw [if_neg (by omega)]

theorem chain'_map_range' (g : ℕ → ℕ) (hg : ∀ i, g i ≤ g (i + 1)) :
    ∀ (n s : ℕ), List.Chain' (· ≤ ·) ((List.range' s n).map g) := by
  intro n
  induction n with
  | zero => intro s; simp
  | succ m ih =>
    intro s
    rw [List.range'_succ, List.map_cons]
    cases m with
    | zero => simp
    | succ m' =>
      have h2 := ih (s + 1)
      rw [List.range'_succ, List.map_cons] at h2 ⊢
      exact List.Chain'.cons (hg s) h2

theorem logBase_one_le (M fc : ℕ) (hM : 1 ≤ M) (hfc : 2 < fc) :
    (1 : ℝ) ≤ (M : ℝ) ^ ((1 : ℝ) / ((fc : ℝ) - 2)) := by
  have hM' : (1 : ℝ) ≤ (M : ℝ) := by exact_mod_cast hM
  have hfc' : (2 : ℝ) < (fc : ℝ) := by exact_mod_cast hfc
  have hexp : (0 : ℝ) ≤ 1 / ((fc : ℝ) - 2) := by
    apply div_nonneg (by norm_num)
    linarith
  calc (1 : ℝ) = (1 : ℝ) ^ ((1 : ℝ) / ((fc : ℝ) - 2)) := (Real.one_rpow _).symm
    _ ≤ (M : ℝ) ^ ((1 : ℝ) / ((fc : ℝ) - 2)) :=
        Real.rpow_le_rpow (by norm_num) hM' hexp

theorem logBase_pow_top (M fc : ℕ) (hfc : 2 < fc) :
    ((M : ℝ) ^ ((1 : ℝ) / ((fc : ℝ) - 2))) ^ (fc - 2) = (M : ℝ) := by
  have hfc' : (2 : ℝ) < (fc : ℝ) := by exact_mod_cast hfc
  have hne : ((fc : ℝ) - 2) ≠ 0 := by linarith
  have hk : ((fc - 2 : ℕ) : ℝ) = (fc : ℝ) - 2 := by
    push_cast [Nat.cast_sub (by omega : 2 ≤ fc)]
    ring
  rw [← Real.rpow_natCast ((M : ℝ) ^ ((1 : ℝ) / ((fc : ℝ) - 2))) (fc - 2),
    ← Real.rpow_mul (by positivity : (0 : ℝ) ≤ (M : ℝ)), hk,
    one_div_mul_cancel hne, Real.rpow_one]

/-- C2 (amended): for `frameCount ≤ 2` the schedule is `[0, maxIterations]`;
for `frameCount > 2` and `maxIterations ≥ 1` it has exactly `frameCount`
entries, starts at 0, ends at `maxIterations`, is non-decreasing (NOT
strictly increasing: logarithmic spacing can collapse adjacent entries), and
interior entry `i` (for `1 ≤ i ≤ frameCount - 2`) equals
`⌊(maxIterations ^ (1 / (frameCount - 2))) ^ i⌋`. -/
theorem c2_milestones (M fc : ℕ) (hM : 1 ≤ M) :
    (fc ≤ 2 → calculateSnapshotMilestones M fc = [0, M]) ∧
    (2 < fc →
      (calculateSnapshotMilestones M fc).length = fc ∧
      (calculateSnapshotMilestones M fc).getD 0 0 = 0 ∧
      (calculateSnapshotMilestones M fc).getLast? = some M ∧
      List.Chain' (· ≤ ·) (calculateSnapshotMilestones M fc) ∧
      ∀ i, 1 ≤ i → i ≤ fc - 2 →
        (calculateSnapshotMilestones M fc).getD i 0
          = ⌊((M : ℝ) ^ ((1 : ℝ) / ((fc : ℝ) - 2))) ^ i⌋₊) := by
  constructor
  · intro hle
    unfold calculateSnapshotMilestones
    rw [if_pos hle]
  · intro hfc
    have heq := milestones_eq M fc hfc
    have hb1 := logBase_one_le M fc hM hfc
    have hmono : ∀ i j : ℕ, i ≤ j →
        ⌊((M : ℝ) ^ ((1 : ℝ) / ((fc : ℝ) - 2))) ^ i⌋₊
          ≤ ⌊((M : ℝ) ^ ((1 : ℝ) / ((fc : ℝ) - 2))) ^ j⌋₊ :=
      fun i j hij => Nat.floor_mono (pow_le_pow_right₀ hb1 hij)
    have htop : ∀ i : ℕ, i ≤ fc - 2 →
        ⌊((M : ℝ) ^ ((1 : ℝ) / ((fc : ℝ) - 2))) ^ i⌋₊ ≤ M := by
      intro i hi
      calc ⌊((M : ℝ) ^ ((1 : ℝ) / ((fc : ℝ) - 2))) ^ i⌋₊
          ≤ ⌊((M : ℝ) ^ ((1 : ℝ) / ((fc : ℝ) - 2))) ^ (fc - 2)⌋₊ := hmono i (fc - 2) hi
        _ = M := by rw [logBase_pow_top M fc hfc, Nat.floor_natCast]
    refine ⟨?_, ?_, ?_, ?_, ?_⟩
    · rw [heq]
      simp only [List.length_append, List.length_map, List.length_range',
        List.length_cons, List.length_nil]
      omega
    · rw [heq]; rfl
    · rw [heq, List.getLast?_concat]
    · rw [heq]
      have hint : List.Chain' (· ≤ ·) ((List.range' 1 (fc - 2)).map fun i =>
          ⌊((M : ℝ) ^ ((1 : ℝ) / ((fc : ℝ) - 2))) ^ i⌋₊) :=
        chain'_map_range' _ (fun i => hmono i (i + 1) (Nat.le_succ i)) (fc - 2) 1
      have hlink : List.Chain' (· ≤ ·) (((List.range' 1 (fc - 2)).map fun i =>
          ⌊((M : ℝ) ^ ((1 : ℝ) / ((fc : ℝ) - 2))) ^ i⌋₊) ++ [M]) := by
        apply List.chain'_append.mpr
        refine ⟨hint, List.chain'_singleton M, ?_⟩
        intro x hx y hy
        have hyM : M = y := by simpa using hy
        have hxmem : x ∈ (List.range' 1 (fc - 2)).map fun i =>
            ⌊((M : ℝ) ^ ((1 : ℝ) / ((fc : ℝ) - 2))) ^ i⌋₊ := by
          obtain ⟨hne', hxeq⟩ := List.mem_getLast?_eq_getLast hx
          rw [hxeq]
          exact List.getLast_mem hne'
        obtain ⟨i, hi, hxi⟩ := List.mem_map.mp hxmem
        have hi2 : i ≤ fc - 2 := by
          have := List.mem_range'_1.mp hi
          omega
        rw [← hyM, ← hxi]
        exact htop i hi2
      rw [List.append_assoc]
      apply List.chain'_cons'.mpr
      exact ⟨fun b _ => Nat.zero_le b, hlink⟩
    · intro i hi1 hi2
      rw [heq]
      have hlt : i - 1 < ((List.range' 1 (fc - 2)).map fun j =>
          ⌊((M : ℝ) ^ ((1 : ℝ) / ((fc : ℝ) - 2))) ^ j⌋₊).length := by
        simp only [List.length_map, List.length_range']
        omega
      obtain ⟨i', rfl⟩ : ∃ i', i = i' + 1 := ⟨i - 1, by omega⟩
      show (((List.range' 1 (fc - 2)).map fun j =>
          ⌊((M : ℝ) ^ ((1 : ℝ) / ((fc : ℝ) - 2))) ^ j⌋₊) ++ [M]).getD i' 0 = _
      rw [List.getD_append _ _ _ _ (by simpa using hlt)]
      rw [List.getD_eq_getElem _ _ (by simpa using hlt)]
      rw [List.getElem_map, List.getElem_range']
      norm_num [Nat.add_comm]

/-- C2 witness: the schedule for `maxIterations = 1`, `frameCount = 3`. -/
theorem c2_witness :
    1 ≤ 1 ∧
    (((3 : ℕ) ≤ 2 → calculateSnapshotMilestones 1 3 = [0, 1]) ∧
      (2 < 3 →
        (calculateSnapshotMilestones 1 3).length = 3 ∧
        (calculateSnapshotMilestones 1 3).getD 0 0 = 0 ∧
        (calculateSnapshotMilestones 1 3).getLast? = some 1 ∧
        List.Chain' (· ≤ ·) (calculateSnapshotMilestones 1 3) ∧
        ∀ i, 1 ≤ i → i ≤ 3 - 2 →
          (calculateSnapshotMilestones 1 3).getD i 0
            = ⌊((((1 : ℕ)) : ℝ) ^ ((1 : ℝ) / ((((3 : ℕ)) : ℝ) - 2))) ^ i⌋₊)) :=
  ⟨le_refl 1, c2_milestones 1 3 (le_refl 1)⟩

/-- C2 counterexample to "strictly increasing": with `maxIterations = 1` and
`frameCount = 4` the schedule is `[0, 1, 1, 1]`, which is not a strictly
increasing sequence. -/
theorem c2_counterexample :
    ¬ List.Chain' (· < ·) (calculateSnapshotMilestones 1 4) := by
  have h : calculateSnapshotMilestones 1 4 = [0, 1, 1, 1] := by
    rw [milestones_eq 1 4 (by omega)]
    norm_num [List.range', Real.one_rpow]
  rw [h]
  simp [List.chain'_cons]

/-! ## C6: the single-sample training step -/

theorem getD_map_range {α : Type} (d : α) (f : ℕ → α) {n i : ℕ} (h : i < n) :
    ((List.range n).map f).getD i d = f i := by
  rw [List.getD_eq_getElem _ _ (by simpa using h), List.getElem_map, List.getElem_range]

theorem train_weights_def (net : NeuralNetwork) (x y r g b : ℚ) :
    (net.train x y r g b).1.weights
      = ((List.range net.weights.length).map fun l =>
          updateLayer net.learningRate net.momentum net.l2Decay
            (net.layerSizes.getD l 0) (net.layerSizes.getD (l + 1) 0)
            (net.weights.getD l []) (net.biases.getD l [])
            (net.weightVelocities.getD l []) (net.biasVelocities.getD l [])
            ((net.trainTrace x y).1.getD l []) ((net.trainDeltas x y r g b).getD l [])).map
          (·.1) := rfl

theorem train_biases_def (net : NeuralNetwork) (x y r g b : ℚ) :
    (net.train x y r g b).1.biases
      = ((List.range net.weights.length).map fun l =>
          updateLayer net.learningRate net.momentum net.l2Decay
            (net.layerSizes.getD l 0) (net.layerSizes.getD (l + 1) 0)
            (net.weights.getD l []) (net.biases.getD l [])
            (net.weightVelocities.getD l []) (net.biasVelocities.getD l [])
            ((net.trainTrace x y).1.getD l []) ((net.trainDeltas x y r g b).getD l [])).map
          (·.2.1) := rfl

theorem train_weightVel_def (net : NeuralNetwork) (x y r g b : ℚ) :
    (net.train x y r g b).1.weightVelocities
      = ((List.range net.weights.length).map fun l =>
          updateLayer net.learningRate net.momentum net.l2Decay
            (net.layerSizes.getD l 0) (net.layerSizes.getD (l + 1) 0)
            (net.weights.getD l []) (net.biases.getD l [])
            (net.weightVelocities.getD l []) (net.biasVelocities.getD l [])
            ((net.trainTrace x y).1.getD l []) ((net.trainDeltas x y r g b).getD l [])).map
          (·.2.2.1) := rfl

theorem train_biasVel_def (net : NeuralNetwork) (x y r g b : ℚ) :
    (net.train x y r g b).1.biasVelocities
      = ((List.range net.weights.length).map fun l =>
          updateLayer net.learningRate net.momentum net.l2Decay
            (net.layerSizes.getD l 0) (net.layerSizes.getD (l + 1) 0)
            (net.weights.getD l []) (net.biases.getD l [])
            (net.weightVelocities.getD l []) (net.biasVelocities.getD l [])
            ((net.trainTrace x y).1.getD l []) ((net.trainDeltas x y r g b).getD l [])).map
          (·.2.2.2) := rfl

theorem train_loss_def (net : NeuralNetwork) (x y r g b : ℚ) :
    (net.train x y r g b).2
      = ((List.range 3).foldl
          (fun s i => s + ([r, g, b].getD i 0
            - ((net.trainTrace x y).1.getD net.weights.length []).getD i 0) ^ 2) 0) / 3 := rfl

theorem layerZA_snd (net : NeuralNetwork) (l : ℕ) (cur : List ℚ) :
    (net.layerZA l cur).2 = net.layerOut l cur := by
  simp only [NeuralNetwork.layerZA, NeuralNetwork.layerOut, List.map_map]
  rfl

theorem traceFrom_last (net : NeuralNetwork) :
    ∀ (fuel l : ℕ) (cur : List ℚ) (accA accZ : List (List ℚ)),
      (net.traceFrom fuel l cur (accA ++ [cur], accZ)).1.getLastD []
        = net.forwardFrom fuel l cur := by
  intro fuel
  induction fuel with
  | zero =>
    intro l cur accA accZ
    exact List.getLastD_concat _ _ _
  | succ n ih =>
    intro l cur accA accZ
    show (net.traceFrom n (l + 1) (net.layerZA l cur).2
        ((accA ++ [cur]) ++ [(net.layerZA l cur).2], accZ ++ [(net.layerZA l cur).1])).1.getLastD []
      = net.forwardFrom (n + 1) l cur
    rw [ih (l + 1) (net.layerZA l cur).2 (accA ++ [cur]) (accZ ++ [(net.layerZA l cur).1])]
    show net.forwardFrom n (l + 1) (net.layerZA l cur).2
      = net.forwardFrom n (l + 1) (net.layerOut l cur)
    rw [layerZA_snd]

theorem traceFrom_len (net : NeuralNetwork) :
    ∀ (fuel l : ℕ) (cur : List ℚ) (accA accZ : List (List ℚ)),
      (net.traceFrom fuel l cur (accA, accZ)).1.length = accA.length + fuel := by
  intro fuel
  induction fuel with
  | zero => intro l cur accA accZ; rfl
  | succ n ih =>
    intro l cur accA accZ
    show (net.traceFrom n (l + 1) (net.layerZA l cur).2
        (accA ++ [(net.layerZA l cur).2], accZ ++ [(net.layerZA l cur).1])).1.length
      = accA.length + (n + 1)
    rw [ih]
    simp
    omega

theorem getD_of_len_succ {α : Type} (l : List α) (d : α) (n : ℕ) (h : l.length = n + 1) :
    l.getD n d = l.getLastD d := by
  have hne : l ≠ [] := by
    intro he
    rw [he] at h
    simp at h
  rw [List.getD_eq_getElem _ _ (by omega)]
  rw [List.getLastD_eq_getLast?, List.getLast?_eq_getLast_of_ne_nil hne]
  rw [List.getLast_eq_getElem]
  simp [h]

theorem trace_output (net : NeuralNetwork) (x y : ℚ) :
    (net.trainTrace x y).1.getD net.weights.length [] = net.forward x y := by
  have hlen : (net.trainTrace x y).1.length = net.weights.length + 1 := by
    have := traceFrom_len net net.weights.length 0 [x, y] [[x, y]] []
    simp only [NeuralNetwork.trainTrace]
    rw [this]
    simp [Nat.add_comm]
  rw [getD_of_len_succ _ _ _ hlen]
  have := traceFrom_last net net.weights.length 0 [x, y] [] []
  simpa [NeuralNetwork.trainTrace, NeuralNetwork.forward] using this

theorem hiddenDeltas_len (net : NeuralNetwork) (zVals : List (List ℚ)) :
    ∀ (fuel : ℕ) (ds : List (List ℚ)),
      (net.hiddenDeltas zVals fuel ds).length = fuel + ds.length := by
  intro fuel
  induction fuel with
  | zero => intro ds; simp [NeuralNetwork.hiddenDeltas]
  | succ n ih =>
    intro ds
    show (net.hiddenDeltas zVals n (_ :: ds)).length = (n + 1) + ds.length
    rw [ih]
    simp
    omega

theorem hiddenDeltas_last (net : NeuralNetwork) (zVals : List (List ℚ)) :
    ∀ (fuel : ℕ) (ds : List (List ℚ)), ds ≠ [] →
      (net.hiddenDeltas zVals fuel ds).getLastD [] = ds.getLastD [] := by
  intro fuel
  induction fuel with
  | zero => intro ds _; rfl
  | succ n ih =>
    intro ds hne
    show (net.hiddenDeltas zVals n (_ :: ds)).getLastD [] = ds.getLastD []
    rw [ih _ (by simp), List.getLastD_cons, getLastD_irrel ds hne]

theorem trainDeltas_last (net : NeuralNetwork) (x y r g b : ℚ) :
    (net.trainDeltas x y r g b).getD (net.weights.length - 1) []
      = outputDelta [r, g, b] (net.forward x y) := by
  have hlen : (net.trainDeltas x y r g b).length = (net.weights.length - 1) + 1 := by
    show (net.hiddenDeltas _ (net.weights.length - 1) [_]).length = _
    rw [hiddenDeltas_len]
    rfl
  rw [getD_of_len_succ _ _ _ hlen]
  show (net.hiddenDeltas _ (net.weights.length - 1)
      [outputDelta [r, g, b] ((net.trainTrace x y).1.getD net.weights.length [])]).getLastD []
    = _
  rw [hiddenDeltas_last net _ _ _ (by simp), trace_output]
  rfl

theorem getD_map_map_range {α β : Type} (d : β) {F : ℕ → α} {g : α → β} {n i : ℕ}
    (h : i < n) : (((List.range n).map F).map g).getD i d = g (F i) := by
  rw [List.map_map, getD_map_range d _ h]
  rfl

theorem updateLayer_wv (lr mom l2 : ℚ) (inS outS : ℕ) (w bs wv bv act δ : List ℚ) :
    (updateLayer lr mom l2 inS outS w bs wv bv act δ).2.2.1
      = (List.range (outS * inS)).map fun idx =>
          mom * wv.getD idx 0
            + lr * (δ.getD (idx / inS) 0 * act.getD (idx % inS) 0 - l2 * w.getD idx 0) := rfl

theorem updateLayer_w (lr mom l2 : ℚ) (inS outS : ℕ) (w bs wv bv act δ : List ℚ) :
    (updateLayer lr mom l2 inS outS w bs wv bv act δ).1
      = (List.range (outS * inS)).map fun idx =>
          w.getD idx 0
            + ((updateLayer lr mom l2 inS outS w bs wv bv act δ).2.2.1).getD idx 0 := rfl

theorem updateLayer_bv (lr mom l2 : ℚ) (inS outS : ℕ) (w bs wv bv act δ : List ℚ) :
    (updateLayer lr mom l2 inS outS w bs wv bv act δ).2.2.2
      = (List.range outS).map fun j2 => mom * bv.getD j2 0 + lr * δ.getD j2 0 := rfl

theorem updateLayer_b (lr mom l2 : ℚ) (inS outS : ℕ) (w bs wv bv act δ : List ℚ) :
    (updateLayer lr mom l2 inS outS w bs wv bv act δ).2.1
      = (List.range outS).map fun j2 =>
          bs.getD j2 0
            + ((updateLayer lr mom l2 inS outS w bs wv bv act δ).2.2.2).getD j2 0 := rfl

theorem idx_div (j k inS : ℕ) (hk : k < inS) : (j * inS + k) / inS = j := by
  have hpos : 0 < inS := lt_of_le_of_lt (Nat.zero_le k) hk
  rw [show j * inS + k = k + inS * j by ring, Nat.add_mul_div_left _ _ hpos,
    Nat.div_eq_of_lt hk, Nat.zero_add]

theorem idx_mod (j k inS : ℕ) (hk : k < inS) : (j * inS + k) % inS = k := by
  rw [show j * inS + k = k + inS * j by ring, Nat.add_mul_mod_self_left,
    Nat.mod_eq_of_lt hk]

theorem idx_lt (j k inS outS : ℕ) (hj : j < outS) (hk : k < inS) :
    j * inS + k < outS * inS := by
  calc j * inS + k < j * inS + inS := by omega
    _ = (j + 1) * inS := by ring
    _ ≤ outS * inS := Nat.mul_le_mul_right inS (Nat.succ_le_of_lt hj)

/-- C6: in one `train(x, y, targetR, targetG, targetB)` call, the
output-layer error signal is `target - output` per channel; each weight's
gradient is `error * upstream_activation - l2Decay * currentWeight` and each
bias's gradient is `error`; every parameter is updated by
`velocity = momentum * velocity + learningRate * gradient` followed by
`parameter += velocity`; and the returned value is the mean-squared error
over the 3 output channels of the forward pass of that sample. -/
theorem c6_train_step (net : NeuralNetwork) (x y r g b : ℚ) (l j k : ℕ)
    (hl : l < net.weights.length)
    (hj : j < net.layerSizes.getD (l + 1) 0)
    (hk : k < net.layerSizes.getD l 0) :
    ((net.trainDeltas x y r g b).getD (net.weights.length - 1) []
        = outputDelta [r, g, b] (net.forward x y)) ∧
    (((net.train x y r g b).1.weightVelocities.getD l []).getD
        (j * net.layerSizes.getD l 0 + k) 0
      = net.momentum * ((net.weightVelocities.getD l []).getD
          (j * net.layerSizes.getD l 0 + k) 0)
        + net.learningRate * (((net.trainDeltas x y r g b).getD l []).getD j 0
            * (((net.trainTrace x y).1.getD l []).getD k 0)
          - net.l2Decay * ((net.weights.getD l []).getD
              (j * net.layerSizes.getD l 0 + k) 0))) ∧
    (((net.train x y r g b).1.weights.getD l []).getD (j * net.layerSizes.getD l 0 + k) 0
      = ((net.weights.getD l []).getD (j * net.layerSizes.getD l 0 + k) 0)
        + (((net.train x y r g b).1.weightVelocities.getD l []).getD
            (j * net.layerSizes.getD l 0 + k) 0)) ∧
    (((net.train x y r g b).1.biasVelocities.getD l []).getD j 0
      = net.momentum * ((net.biasVelocities.getD l []).getD j 0)
        + net.learningRate * (((net.trainDeltas x y r g b).getD l []).getD j 0)) ∧
    (((net.train x y r g b).1.biases.getD l []).getD j 0
      = ((net.biases.getD l []).getD j 0)
        + (((net.train x y r g b).1.biasVelocities.getD l []).getD j 0)) ∧
    ((net.train x y r g b).2
      = ((r - (net.forward x y).getD 0 0) ^ 2 + (g - (net.forward x y).getD 1 0) ^ 2
          + (b - (net.forward x y).getD 2 0) ^ 2) / 3) := by
  have hidx : j * net.layerSizes.getD l 0 + k
      < net.layerSizes.getD (l + 1) 0 * net.layerSizes.getD l 0 := idx_lt _ _ _ _ hj hk
  have hdiv := idx_div j k (net.layerSizes.getD l 0) hk
  have hmod := idx_mod j k (net.layerSizes.getD l 0) hk
  refine ⟨trainDeltas_last net x y r g b, ?_, ?_, ?_, ?_, ?_⟩
  · rw [train_weightVel_def net x y r g b, getD_map_map_range _ hl]
    simp only [updateLayer_wv]
    rw [getD_map_range _ _ hidx, hdiv, hmod]
  · rw [train_weights_def net x y r g b, getD_map_map_range _ hl,
      train_weightVel_def net x y r g b, getD_map_map_range _ hl]
    simp only [updateLayer_w]
    rw [getD_map_range _ _ hidx]
  · rw [train_biasVel_def net x y r g b, getD_map_map_range _ hl]
    simp only [updateLayer_bv]
    rw [getD_map_range _ _ hj]
  · rw [train_biases_def net x y r g b, getD_map_map_range _ hl,
      train_biasVel_def net x y r g b, getD_map_map_range _ hl]
    simp only [updateLayer_b]
    rw [getD_map_range _ _ hj]
  · rw [train_loss_def net x y r g b, trace_output net x y]
    have h3 : List.range 3 = [0, 1, 2] := rfl
    rw [h3]
    simp only [List.foldl_cons, List.foldl_nil, List.getD_cons_zero, List.getD_cons_succ]
    ring

/-- C6 witness: the train-step equations at the concrete test network,
sample `(0, 0)` with target `(1, 1, 1)`, layer 0, output 0, input 0. -/
theorem c6_witness :
    0 < testNet.weights.length ∧
    0 < testNet.layerSizes.getD (0 + 1) 0 ∧
    0 < testNet.layerSizes.getD 0 0 ∧
    (((testNet.trainDeltas 0 0 1 1 1).getD (testNet.weights.length - 1) []
        = outputDelta [1, 1, 1] (testNet.forward 0 0)) ∧
      (((testNet.train 0 0 1 1 1).1.weightVelocities.getD 0 []).getD
          (0 * testNet.layerSizes.getD 0 0 + 0) 0
        = testNet.momentum * ((testNet.weightVelocities.getD 0 []).getD
            (0 * testNet.layerSizes.getD 0 0 + 0) 0)
          + testNet.learningRate * (((testNet.trainDeltas 0 0 1 1 1).getD 0 []).getD 0 0
              * (((testNet.trainTrace 0 0).1.getD 0 []).getD 0 0)
            - testNet.l2Decay * ((testNet.weights.getD 0 []).getD
                (0 * testNet.layerSizes.getD 0 0 + 0) 0))) ∧
      (((testNet.train 0 0 1 1 1).1.weights.getD 0 []).getD
          (0 * testNet.layerSizes.getD 0 0 + 0) 0
        = ((testNet.weights.getD 0 []).getD (0 * testNet.layerSizes.getD 0 0 + 0) 0)
          + (((testNet.train 0 0 1 1 1).1.weightVelocities.getD 0 []).getD
              (0 * testNet.layerSizes.getD 0 0 + 0) 0)) ∧
      (((testNet.train 0 0 1 1 1).1.biasVelocities.getD 0 []).getD 0 0
        = testNet.momentum * ((testNet.biasVelocities.getD 0 []).getD 0 0)
          + testNet.learningRate * (((testNet.trainDeltas 0 0 1 1 1).getD 0 []).getD 0 0)) ∧
      (((testNet.train 0 0 1 1 1).1.biases.getD 0 []).getD 0 0
        = ((testNet.biases.getD 0 []).getD 0 0)
          + (((testNet.train 0 0 1 1 1).1.biasVelocities.getD 0 []).getD 0 0)) ∧
      ((testNet.train 0 0 1 1 1).2
        = ((1 - (testNet.forward 0 0).getD 0 0) ^ 2 + (1 - (testNet.forward 0 0).getD 1 0) ^ 2
            + (1 - (testNet.forward 0 0).getD 2 0) ^ 2) / 3)) :=
  ⟨by decide, by decide, by decide,
    c6_train_step testNet 0 0 1 1 1 0 0 0 (by decide) (by decide) (by decide)⟩

end ImagePainter
